import Mathlib

/-!
# docker-memory-api: volume usage report

A shallow embedding of `main.go` (handlers `statsHandler`,
`singleContainerStatsHandler`, and the helpers `measureVolumeBytes`,
`byteString`) together with the properties of the volume-usage pipeline.

Conventions of the embedding.

* Go strings are Lean `String`s; identifiers and names are ASCII, where Go's
  byte indices and Lean's character indices coincide, and the helper's output is
  valid UTF-8 text.
* `int64` values are `Int`s inside `[-2^63, 2^63)`.
* A `float64` that the program can build is a signed dyadic number
  `± mant * 2^exp`; the conversion `float64(int64)` rounds to the nearest
  53-bit significand (ties to even) and a division by `2^k` lowers the exponent.
* `fmt.Sprintf("%.2f", x)` prints the exact decimal value of `x` rounded to two
  fraction digits, ties to even (`strconv` rounds the exact decimal expansion).
* The external world of one request (Docker daemon, helper process, order in
  which Go ranges over a map) is an explicit `World` of oracles.
* A handler ends with a `Response` or with a run-time panic.  A JSON body is kept
  as a value (`null`, or an array of objects with their keys in order), not as text.
-/

namespace DockerMemoryApi

/-! ## Library functions used by the program -/

/-- Go `unicode.IsSpace`: the White_Space code points. -/
def isSpace (c : Char) : Bool :=
  let n := c.toNat
  (0x09 ≤ n && n ≤ 0x0D) || n == 0x20 || n == 0x85 || n == 0xA0 || n == 0x1680 ||
  (0x2000 ≤ n && n ≤ 0x200A) || n == 0x2028 || n == 0x2029 || n == 0x202F ||
  n == 0x205F || n == 0x3000

/-- Scanning loop of `strings.Fields`: the second argument is the field being
read (reversed), `none` between two fields. -/
def fieldsGo : List Char → Option (List Char) → List (List Char)
  | [], none => []
  | [], some tok => [tok.reverse]
  | c :: cs, none => if isSpace c then fieldsGo cs none else fieldsGo cs (some [c])
  | c :: cs, some tok =>
    if isSpace c then tok.reverse :: fieldsGo cs none else fieldsGo cs (some (c :: tok))

/-- Go `strings.Fields`: the maximal runs of non-space characters, in order. -/
def fields (s : List Char) : List (List Char) := fieldsGo s none

/-- Value of a run of decimal digits, most significant first. -/
def digitsValue (ds : List Char) : Nat :=
  ds.foldl (fun acc c => 10 * acc + (c.toNat - 48)) 0

/-- Go `fmt.Sscanf(tok, "%d", &size)` on a token without spaces: an optional
sign, then the longest run of decimal digits, read as an `int64`; what follows
the digits is left unread.  `none` when there is no digit or the number does
not fit in 64 bits (`size` is then not assigned). -/
def sscanfInt (tok : List Char) : Option Int :=
  let signed : Bool × List Char :=
    match tok with
    | '-' :: r => (true, r)
    | '+' :: r => (false, r)
    | r => (false, r)
  let ds := signed.2.takeWhile Char.isDigit
  if ds = [] then none
  else
    let v : Int := if signed.1 then -(digitsValue ds : Int) else (digitsValue ds : Int)
    if -2 ^ 63 ≤ v ∧ v < 2 ^ 63 then some v else none

/-- A finite `float64` as a signed dyadic number `± mant * 2 ^ exp`. -/
structure Float64 where
  neg : Bool
  mant : Nat
  exp : Int
  deriving DecidableEq

/-- The least `e ≤ n` with `a < 2 ^ (53 + e)` (`n` when there is none): the number
of low bits that do not fit in a 53-bit significand. -/
def excessBits (a : Nat) : Nat → Nat
  | 0 => 0
  | e + 1 => if a < 2 ^ (53 + e) then excessBits a e else e + 1

/-- The integer nearest to `n / d`, ties to even. -/
def roundHalfEven (n d : Nat) : Nat :=
  let q := n / d
  let r := n % d
  if d < 2 * r ∨ (2 * r = d ∧ q % 2 = 1) then q + 1 else q

/-- Go conversion `float64(b)` of an `int64`: exact below `2^53`, otherwise the
nearest number with a 53-bit significand, ties to the even significand
(`|b| ≤ 2^63`, so at most 11 low bits are dropped). -/
def float64OfInt64 (b : Int) : Float64 :=
  let a := b.natAbs
  if a < 2 ^ 53 then ⟨decide (b < 0), a, 0⟩
  else
    let e := excessBits a 11
    ⟨decide (b < 0), roundHalfEven a (2 ^ e), e⟩

/-- Float division by the constant `2 ^ k` (`1024`, `1024*1024`, ...): exact,
the exponent drops by `k`. -/
def Float64.divPow2 (x : Float64) (k : Nat) : Float64 :=
  { x with exp := x.exp - k }

/-- Hundredths of `|x|` after rounding to two fraction digits (ties to even). -/
def Float64.hundredths (x : Float64) : Nat :=
  if 0 ≤ x.exp then x.mant * 100 * 2 ^ x.exp.toNat
  else roundHalfEven (x.mant * 100) (2 ^ (-x.exp).toNat)

/-- Decimal text with exactly two fraction digits of `h` hundredths. -/
def showHundredths (h : Nat) : String :=
  toString (h / 100) ++ "." ++ String.mk [Nat.digitChar (h % 100 / 10), Nat.digitChar (h % 10)]

/-- Go `fmt.Sprintf("%.2f", x)`. -/
def sprintfF2 (x : Float64) : String :=
  (if x.neg then "-" else "") ++ showHundredths x.hundredths

/-- Go `strings.TrimPrefix`. -/
def trimPrefix (s pre : String) : String :=
  if pre.data.isPrefixOf s.data then String.mk (s.data.drop pre.data.length) else s

/-- Go slice expression `s[:n]`; `none` is the run-time panic
"slice bounds out of range". -/
def sliceTo (s : String) (n : Nat) : Option String :=
  if n ≤ s.data.length then some (String.mk (s.data.take n)) else none

/-! ## Data model -/

/-- Go `VolumeStat`: the usage info for a container volume. -/
structure VolumeStat where
  ContainerName : String
  ContainerID : String
  VolumeName : String
  Usage : String
  UsageMB : String
  Port : String
  deriving DecidableEq

/-- Docker `nat.PortBinding`. -/
structure PortBinding where
  HostIP : String
  HostPort : String
  deriving DecidableEq

/-- Docker `nat.PortMap`, a Go map from port to bindings, listed as its entries. -/
abbrev PortMap := List (String × List PortBinding)

/-- Docker `types.MountPoint` (the field `Type` is called `MountType`). -/
structure MountPoint where
  MountType : String
  Name : String
  deriving DecidableEq

/-- Docker `types.ContainerJSON`, the answer of `ContainerInspect`; `Ports` is
`NetworkSettings.Ports`. -/
structure ContainerJSON where
  ID : String
  Name : String
  Mounts : List MountPoint
  Ports : PortMap
  deriving DecidableEq

/-- Docker `types.Container`, an element of the answer of `ContainerList`. -/
structure Container where
  ID : String
  Names : List String
  deriving DecidableEq

/-- Result of `cmd.CombinedOutput()`: the combined output and whether `err != nil`
(launch failure or non-zero exit). -/
structure CmdResult where
  output : String
  failed : Bool
  deriving DecidableEq

/-- The external world of one request.  `containerInspect i` answers the
`i`-th inspect call, `exec k` the `k`-th helper command, `rangeOrder k` is the
order in which the `k`-th `range` over a ports map visits its entries (Go leaves
it unspecified and varies it from one loop to the next). -/
structure World where
  newClient : Option String
  containerList : Except String (List Container)
  containerInspect : Nat → String → Except String ContainerJSON
  exec : Nat → List String → CmdResult
  rangeOrder : Nat → PortMap → PortMap
  rangeOrder_perm : ∀ k m, (rangeOrder k m).Perm m

/-- The JSON value written by `json.NewEncoder(w).Encode(results)`: `null` for a
nil slice, otherwise an array of objects given by their keys and string values. -/
inductive Json where
  | null
  | array (items : List (List (String × String)))
  deriving DecidableEq

/-- Body of an HTTP response. -/
inductive Body where
  | text (s : String)
  | json (j : Json)
  deriving DecidableEq

/-- An HTTP response: status code and body. -/
structure Response where
  status : Nat
  body : Body
  deriving DecidableEq

/-- How a handler ends: with a response, or with a run-time panic (the server
drops the connection and no response is sent). -/
inductive Outcome where
  | panic
  | response (r : Response)
  deriving DecidableEq

/-! ## The program -/

/-- Go `byteString`: formats its argument and runs no command (the source comment
about `du -sh` and "15M" does not describe it). -/
def byteString (bytes : Int) : String :=
  if bytes < 2 ^ 10 then toString bytes ++ "B"
  else if bytes < 2 ^ 20 then sprintfF2 ((float64OfInt64 bytes).divPow2 10) ++ "KB"
  else if bytes < 2 ^ 30 then sprintfF2 ((float64OfInt64 bytes).divPow2 20) ++ "MB"
  else sprintfF2 ((float64OfInt64 bytes).divPow2 30) ++ "GB"

/-- The part of `measureVolumeBytes` after the helper has run. -/
def parseDuOutput (r : CmdResult) : Int :=
  if r.failed then 0
  else
    match fields r.output.data with
    | [] => 0
    | tok :: _ => (sscanfInt tok).getD 0

/-- The command line built by `exec.CommandContext` in `measureVolumeBytes`. -/
def duCommand (volumeName : String) : List String :=
  ["docker", "run", "--rm", "-v", volumeName ++ ":/mnt", "busybox", "du", "-sb", "/mnt"]

/-- Go `measureVolumeBytes`: runs the helper (the `k`-th helper command of the
request) and reads the size from its combined output. -/
def measureVolumeBytes (W : World) (k : Nat) (volumeName : String) : Int :=
  parseDuOutput (W.exec k (duCommand volumeName))

/-- The loop `for _, p := range Ports { if len(p) > 0 { port = p[0].HostPort; break } }`
over the entries in the order the loop visits them. -/
def firstPort : PortMap → String
  | [] => ""
  | (_, []) :: rest => firstPort rest
  | (_, b :: _) :: _ => b.HostPort

/-- The expression `fmt.Sprintf("%.2f", float64(usageBytes)/(1024*1024))`. -/
def usageMBString (usageBytes : Int) : String :=
  sprintfF2 ((float64OfInt64 usageBytes).divPow2 20)

/-- The loop `for _, mount := range inspect.Mounts` of both handlers.  `name` is
the container name expression (`none` when `c.Names[0]` is out of range), `id`
the string that the handler slices with `[:12]`.  The measurement and the ports
loop of an entry are the `len(results)`-th of the request.  `none` is a panic. -/
def volumeLoop (W : World) (name : Option String) (id : String) (ports : PortMap) :
    List MountPoint → List VolumeStat → Option (List VolumeStat)
  | [], results => some results
  | mount :: rest, results =>
    if mount.MountType = "volume" then
      let usageBytes := measureVolumeBytes W results.length mount.Name
      let usageMB := usageMBString usageBytes
      let port := firstPort (W.rangeOrder results.length ports)
      match name, sliceTo id 12 with
      | some nm, some short =>
        volumeLoop W name id ports rest
          (results ++ [{ ContainerName := trimPrefix nm "/", ContainerID := short,
                         VolumeName := mount.Name, Usage := byteString usageBytes,
                         UsageMB := usageMB, Port := port }])
      | _, _ => none
    else volumeLoop W name id ports rest results

/-- The loop `for _, c := range containers` of `statsHandler`; `i` counts the
inspect calls. -/
def containerLoop (W : World) :
    Nat → List Container → List VolumeStat → Option (List VolumeStat)
  | _, [], results => some results
  | i, c :: cs, results =>
    match W.containerInspect i c.ID with
    | .error _ => containerLoop W (i + 1) cs results
    | .ok inspect =>
      match volumeLoop W c.Names.head? c.ID inspect.Ports inspect.Mounts results with
      | none => none
      | some results' => containerLoop W (i + 1) cs results'

/-- JSON object of one `VolumeStat`: `usage_mb` and `port` carry `omitempty`. -/
def encodeVolumeStat (v : VolumeStat) : List (String × String) :=
  [("container_name", v.ContainerName), ("container_id", v.ContainerID),
   ("volume_name", v.VolumeName), ("usage", v.Usage)] ++
  (if v.UsageMB = "" then [] else [("usage_mb", v.UsageMB)]) ++
  (if v.Port = "" then [] else [("port", v.Port)])

/-- What `json.Encoder.Encode` writes for `results`, a slice that is nil until the
first `append`. -/
def encodeResults : List VolumeStat → Json
  | [] => Json.null
  | v :: vs => Json.array ((v :: vs).map encodeVolumeStat)

/-- Go `http.Error(w, msg, code)`. -/
def httpError (msg : String) (code : Nat) : Outcome :=
  .response ⟨code, .text (msg ++ "\n")⟩

/-- Go `statsHandler` (GET /stats). -/
def statsHandler (W : World) : Outcome :=
  match W.newClient with
  | some err => httpError err 500
  | none =>
    match W.containerList with
    | .error err => httpError err 500
    | .ok containers =>
      match containerLoop W 0 containers [] with
      | none => .panic
      | some results => .response ⟨200, .json (encodeResults results)⟩

/-- Go `singleContainerStatsHandler` (GET /stats/{id}) on the request path. -/
def singleContainerStatsHandler (W : World) (path : String) : Outcome :=
  let containerID := trimPrefix path "/stats/"
  if containerID = "" then httpError "Container ID required" 400
  else
    match W.newClient with
    | some err => httpError err 500
    | none =>
      match W.containerInspect 0 containerID with
      | .error err => httpError err 404
      | .ok inspect =>
        match volumeLoop W (some inspect.Name) containerID inspect.Ports inspect.Mounts [] with
        | none => .panic
        | some results => .response ⟨200, .json (encodeResults results)⟩

/-! ## Specification-side notions and concrete worlds -/

/-- The quotient `n / d` formatted with exactly two fraction digits: the nearest
number of hundredths (ties to even), printed as integer part, point, two digits. -/
def formatQuotient2 (n d : Nat) : String :=
  showHundredths (roundHalfEven (100 * n) d)

/-- The natural number a non-negative-exponent `Float64` stands for (its absolute value). -/
def Float64.natAbs (x : Float64) : Nat := x.mant * 2 ^ x.exp.toNat

/-- The number `a` rounded to the nearest multiple of `2 ^ e`, ties to the even
multiple. -/
def nearestMultiple (a e : Nat) : Nat := roundHalfEven a (2 ^ e) * 2 ^ e

/-- What the scanner needs of a decimal digit character. -/
def DigitChar (c : Char) : Prop :=
  c.isDigit = true ∧ isSpace c = false ∧ c ≠ '-' ∧ c ≠ '+'

/-- One volume to report: the name and short id of its container, the container's
ports map and the volume's name. -/
structure Job where
  name : String
  short : String
  ports : PortMap
  volume : String

/-- The entry produced for a job when it is the `k`-th of the request. -/
def mkEntry (W : World) (k : Nat) (t : Job) : VolumeStat :=
  { ContainerName := t.name, ContainerID := t.short, VolumeName := t.volume,
    Usage := byteString (measureVolumeBytes W k t.volume),
    UsageMB := usageMBString (measureVolumeBytes W k t.volume),
    Port := firstPort (W.rangeOrder k t.ports) }

/-- The mounts of type "volume", in mount order. -/
def volumeMounts (mounts : List MountPoint) : List MountPoint :=
  mounts.filter (fun m => m.MountType = "volume")

/-- The jobs of one container: one per volume-type mount, in mount order. -/
def containerJobs (name short : String) (ports : PortMap) (mounts : List MountPoint) :
    List Job :=
  (volumeMounts mounts).map (fun m => ⟨name, short, ports, m.Name⟩)

/-- The jobs of a container list: those of the containers whose inspection
succeeds, in enumeration order (`i` is the index of the next inspect call). -/
def listJobs (W : World) : Nat → List Container → List Job
  | _, [] => []
  | i, c :: cs =>
    (match W.containerInspect i c.ID with
      | .error _ => []
      | .ok inspect =>
        containerJobs (trimPrefix (c.Names.headD "") "/") (String.mk (c.ID.data.take 12))
          inspect.Ports inspect.Mounts) ++ listJobs W (i + 1) cs

/-- The entries of a list of jobs, the first being the `k`-th of the request. -/
def runJobs (W : World) : Nat → List Job → List VolumeStat
  | _, [] => []
  | k, t :: ts => mkEntry W k t :: runJobs W (k + 1) ts

/-- Backend invariant: every listed container has a name and an identifier of at
least 12 characters. -/
def WellFormed (cs : List Container) : Prop :=
  ∀ c ∈ cs, c.Names ≠ [] ∧ 12 ≤ c.ID.data.length

/-- A world whose client is created, whose list call returns `cs`, whose inspect
and helper calls answer by `inspect` and `run`, and whose map loops visit the
entries in listed order. -/
def simpleWorld (cs : List Container) (inspect : String → Except String ContainerJSON)
    (run : Nat → List String → CmdResult) : World :=
  { newClient := none
    containerList := .ok cs
    containerInspect := fun _ id => inspect id
    exec := run
    rangeOrder := fun _ m => m
    rangeOrder_perm := fun _ m => List.Perm.refl m }

/-- Scenario of the specification: container `web1` (id `abcdef1234567890`) with
one volume mount `data-vol` measured at 15,990,000 bytes and no published ports.
The daemon resolves the container by its identifier and by its name. -/
def web1World : World :=
  simpleWorld [⟨"abcdef1234567890", ["/web1"]⟩]
    (fun id =>
      if id = "abcdef1234567890" ∨ id = "web1" then
        .ok ⟨"abcdef1234567890", "/web1", [⟨"volume", "data-vol"⟩], []⟩
      else .error ("Error response from daemon: No such container: " ++ id))
    (fun _ args =>
      if args = duCommand "data-vol" then ⟨"15990000\t/mnt\n", false⟩
      else ⟨"docker: Error response from daemon", true⟩)

/-- The (container_name, container_id, volume_name) triples the report must
carry: for each listed container in enumeration order whose inspection succeeds,
one triple per mount of type "volume", in mount order. -/
def reportKeys (W : World) : Nat → List Container → List (String × String × String)
  | _, [] => []
  | i, c :: cs =>
    (match W.containerInspect i c.ID with
      | .error _ => []
      | .ok inspect =>
        (inspect.Mounts.filter (fun m => m.MountType = "volume")).map
          (fun m => (trimPrefix (c.Names.headD "") "/", String.mk (c.ID.data.take 12), m.Name)))
      ++ reportKeys W (i + 1) cs

/-- Three listed containers: `db` with a bind mount, two volumes and a tmpfs,
`gone` whose inspection fails, `cache` with one volume. -/
def mixedContainers : List Container :=
  [⟨"0a1b2c3d4e5f60718293", ["/db"]⟩, ⟨"ffeeddccbbaa99887766", ["/gone"]⟩,
   ⟨"123456789abcdef01234", ["/cache"]⟩]

/-- The world of `mixedContainers`; every helper run reports 2048 bytes. -/
def mixedWorld : World :=
  simpleWorld mixedContainers
    (fun id =>
      if id = "0a1b2c3d4e5f60718293" then
        .ok ⟨id, "/db",
          [⟨"bind", ""⟩, ⟨"volume", "pgdata"⟩, ⟨"tmpfs", ""⟩, ⟨"volume", "pglogs"⟩],
          [("5432/tcp", [⟨"0.0.0.0", "5432"⟩])]⟩
      else if id = "123456789abcdef01234" then
        .ok ⟨id, "/cache", [⟨"volume", "redis"⟩], [("6379/tcp", [])]⟩
      else .error ("Error response from daemon: No such container: " ++ id))
    (fun _ _ => ⟨"2048\t/mnt\n", false⟩)

/-- A container with two published ports and two volumes, in a world where
successive loops over the ports map start at different entries. -/
def twoPortsWorld : World :=
  { newClient := none
    containerList := .ok [⟨"9f8e7d6c5b4a39281706", ["/proxy"]⟩]
    containerInspect := fun _ id =>
      .ok ⟨id, "/proxy", [⟨"volume", "certs"⟩, ⟨"volume", "logs"⟩],
        [("80/tcp", [⟨"0.0.0.0", "8080"⟩]), ("443/tcp", [⟨"0.0.0.0", "8443"⟩])]⟩
    exec := fun _ _ => ⟨"4096\t/mnt\n", false⟩
    rangeOrder := fun k m => if k % 2 = 0 then m else m.reverse
    rangeOrder_perm := fun k m => by
      by_cases h : k % 2 = 0
      · simp [h]
      · simp only [h, if_false]
        exact List.reverse_perm m }

/-- A world in which every helper run ends with the given result. -/
def helperWorld (r : CmdResult) : World :=
  simpleWorld [] (fun id => .error ("Error response from daemon: No such container: " ++ id))
    (fun _ _ => r)

/-- The token is, as a whole, a base-10 integer: an optional sign followed by one
or more decimal digits and nothing else. -/
def isBase10Integer (tok : List Char) : Bool :=
  match tok with
  | '-' :: r => !r.isEmpty && r.all Char.isDigit
  | '+' :: r => !r.isEmpty && r.all Char.isDigit
  | r => !r.isEmpty && r.all Char.isDigit

/-- The token begins with a base-10 integer: an optional sign followed by at
least one decimal digit. -/
def startsWithInteger (tok : List Char) : Bool :=
  match tok with
  | '-' :: r => (r.head?.map Char.isDigit).getD false
  | '+' :: r => (r.head?.map Char.isDigit).getD false
  | r => (r.head?.map Char.isDigit).getD false

/-- The ways a helper run fails: launch failure or non-zero exit, empty or
whitespace-only output, or a first token that does not begin with an integer. -/
def HelperFails (r : CmdResult) : Prop :=
  r.failed = true ∨ (∀ c ∈ r.output.data, isSpace c = true) ∨
  ∃ tok rest, fields r.output.data = tok :: rest ∧ startsWithInteger tok = false

/-- A helper run whose output starts with digits followed by other characters. -/
def junkWorld : World :=
  simpleWorld [⟨"abcdef1234567890", ["/web1"]⟩]
    (fun id => .ok ⟨id, "/web1", [⟨"volume", "data-vol"⟩], []⟩)
    (fun _ _ => ⟨"12abc\t/mnt\n", false⟩)

/-- Container `app` with the volumes `broken-vol` and `good-vol`; the first
helper run (for `broken-vol`) exits non-zero when `broken` is set. -/
def brokenVolWorld (broken : Bool) : World :=
  simpleWorld [⟨"77aa88bb99cc00dd11ee", ["/app"]⟩]
    (fun id => .ok ⟨id, "/app", [⟨"volume", "broken-vol"⟩, ⟨"volume", "good-vol"⟩], []⟩)
    (fun j _ =>
      if j = 0 ∧ broken = true then ⟨"docker: Error response from daemon", true⟩
      else ⟨"2048\t/mnt\n", false⟩)

/-- A container that the daemon resolves by its name `my-database-01`; its
identifier is `4f5e6d7c8b9a0f1e2d3c`. -/
def namedWorld : World :=
  simpleWorld [⟨"4f5e6d7c8b9a0f1e2d3c", ["/my-database-01"]⟩]
    (fun id =>
      if id = "4f5e6d7c8b9a0f1e2d3c" ∨ id = "my-database-01" then
        .ok ⟨"4f5e6d7c8b9a0f1e2d3c", "/my-database-01", [⟨"volume", "pgdata"⟩], []⟩
      else .error ("Error response from daemon: No such container: " ++ id))
    (fun _ _ => ⟨"4096\t/mnt\n", false⟩)

/-- No running container. -/
def idleWorld : World :=
  simpleWorld [] (fun id => .error ("Error response from daemon: No such container: " ++ id))
    (fun _ _ => ⟨"", true⟩)

/-- One running container whose only mount is a bind mount. -/
def bindOnlyWorld : World :=
  simpleWorld [⟨"5566778899aabbccddee", ["/static"]⟩]
    (fun id => .ok ⟨id, "/static", [⟨"bind", ""⟩], []⟩)
    (fun _ _ => ⟨"", true⟩)

/-! ## Properties -/

/-! ### Rounding, `float64` conversion and `%.2f` -/

theorem roundHalfEven_nearest (n d : Nat) (hd : 0 < d) :
    2 * (roundHalfEven n d * d) ≤ 2 * n + d ∧ 2 * n ≤ 2 * (roundHalfEven n d * d) + d := by
  have h1 := Nat.div_add_mod n d
  have h2 := Nat.mod_lt n hd
  have h3 : d * (n / d) = n / d * d := Nat.mul_comm _ _
  unfold roundHalfEven
  simp only
  split
  · rename_i h
    rw [Nat.add_mul, Nat.one_mul]
    rcases h with h | h <;> omega
  · rename_i h
    have : ¬ d < 2 * (n % d) := fun hh => h (Or.inl hh)
    omega

theorem roundHalfEven_scale (n d c : Nat) (hc : 0 < c) :
    roundHalfEven (n * c) (d * c) = roundHalfEven n d := by
  unfold roundHalfEven
  simp only [Nat.mul_div_mul_right n d hc, Nat.mul_mod_mul_right]
  have e1 : (d * c < 2 * (n % d * c)) ↔ (d < 2 * (n % d)) := by
    rw [← Nat.mul_assoc]
    exact Nat.mul_lt_mul_right hc
  have e2 : (2 * (n % d * c) = d * c) ↔ (2 * (n % d) = d) := by
    rw [← Nat.mul_assoc]
    exact Nat.mul_left_inj (Nat.pos_iff_ne_zero.mp hc)
  simp only [e1, e2]

theorem excessBits_le (a : Nat) : ∀ n, excessBits a n ≤ n
  | 0 => Nat.le_refl 0
  | n + 1 => by
    unfold excessBits
    split
    · exact Nat.le_succ_of_le (excessBits_le a n)
    · exact Nat.le_refl _

theorem float64OfInt64_exp (b : Int) :
    0 ≤ (float64OfInt64 b).exp ∧ (float64OfInt64 b).exp ≤ 11 := by
  unfold float64OfInt64
  simp only
  split
  · simp
  · have := excessBits_le b.natAbs 11
    simp only
    omega

theorem float64OfInt64_neg (b : Int) : (float64OfInt64 b).neg = decide (b < 0) := by
  unfold float64OfInt64
  simp only
  split <;> rfl

theorem float64OfInt64_exact (b : Int) (h : b.natAbs < 2 ^ 53) :
    float64OfInt64 b = ⟨decide (b < 0), b.natAbs, 0⟩ := by
  unfold float64OfInt64
  simp only [h, if_true]

theorem float64OfInt64_natAbs_exact (b : Int) (h : b.natAbs < 2 ^ 53) :
    (float64OfInt64 b).natAbs = b.natAbs := by
  rw [float64OfInt64_exact b h]
  simp [Float64.natAbs]

/-- Dividing `float64(b)` by `2 ^ k` (`k ≥ 11`) and printing with `%.2f` rounds the
exact quotient of the float's value by `2 ^ k`. -/
theorem hundredths_divPow2 (b : Int) (k : Nat) (hk : 11 < k) :
    ((float64OfInt64 b).divPow2 k).hundredths =
      roundHalfEven (100 * (float64OfInt64 b).natAbs) (2 ^ k) := by
  obtain ⟨h0, h11⟩ := float64OfInt64_exp b
  generalize float64OfInt64 b = x at h0 h11
  obtain ⟨s, m, e⟩ := x
  simp only at h0 h11
  obtain ⟨e, rfl⟩ := Int.eq_ofNat_of_zero_le h0
  have he : e ≤ 11 := by omega
  have hneg : ¬ (0 : Int) ≤ (e : Int) - (k : Int) := by omega
  have hto : (-((e : Int) - (k : Int))).toNat = k - e := by omega
  simp only [Float64.divPow2, Float64.hundredths, Float64.natAbs, hneg, if_false, hto,
    Int.toNat_ofNat]
  have hpow : 2 ^ k = 2 ^ (k - e) * 2 ^ e := by
    rw [← Nat.pow_add]
    congr 1
    omega
  rw [hpow, ← roundHalfEven_scale (m * 100) (2 ^ (k - e)) (2 ^ e) (Nat.two_pow_pos e)]
  congr 1
  ring

theorem sprintfF2_divPow2 (b : Int) (k : Nat) (hk : 11 < k) :
    sprintfF2 ((float64OfInt64 b).divPow2 k) =
      (if b < 0 then "-" else "") ++ formatQuotient2 (float64OfInt64 b).natAbs (2 ^ k) := by
  unfold sprintfF2 formatQuotient2
  rw [hundredths_divPow2 b k hk]
  have : ((float64OfInt64 b).divPow2 k).neg = decide (b < 0) := float64OfInt64_neg b
  rw [this]
  by_cases hb : b < 0 <;> simp [hb]

theorem sprintfF2_divPow2_small (b : Int) (k : Nat) (h0 : 0 ≤ b) (h : b < 2 ^ 53)
    (hk : 0 < k) :
    sprintfF2 ((float64OfInt64 b).divPow2 k) = formatQuotient2 b.toNat (2 ^ k) := by
  have hb : b.natAbs < 2 ^ 53 := by omega
  have hneg : ¬ (0 : Int) ≤ (0 : Int) - (k : Int) := by omega
  have hto : (-((0 : Int) - (k : Int))).toNat = k := by omega
  have hnot : ¬ b < 0 := by omega
  have habs : b.natAbs = b.toNat := by omega
  rw [float64OfInt64_exact b hb]
  simp only [sprintfF2, Float64.divPow2, Float64.hundredths, formatQuotient2, hneg, if_false,
    hto, hnot, decide_False, habs]
  rw [Nat.mul_comm b.toNat 100]
  simp

theorem excessBits_spec (a : Nat) : ∀ n, a < 2 ^ (53 + n) → a < 2 ^ (53 + excessBits a n)
  | 0 => fun h => h
  | n + 1 => by
    intro h
    unfold excessBits
    split
    · rename_i hlt
      exact excessBits_spec a n hlt
    · exact h

theorem excessBits_min (a : Nat) : ∀ n, excessBits a n ≠ 0 → 2 ^ (52 + excessBits a n) ≤ a
  | 0 => fun h => absurd rfl h
  | n + 1 => by
    intro h
    unfold excessBits at h ⊢
    split
    · rename_i hlt
      rw [if_pos hlt] at h
      exact excessBits_min a n h
    · rename_i hge
      have e : 52 + (n + 1) = 53 + n := by omega
      rw [e]
      exact Nat.le_of_not_lt hge

/-- The number of dropped bits is fixed by the binade of the number. -/
theorem excessBits_eq (a e : Nat) (h1 : 2 ^ (52 + e) ≤ a) (h2 : a < 2 ^ (53 + e))
    (h53 : 2 ^ 53 ≤ a) (h64 : a < 2 ^ 64) : excessBits a 11 = e := by
  have hs := excessBits_spec a 11 h64
  have hne : excessBits a 11 ≠ 0 := by
    intro h0
    rw [h0] at hs
    exact absurd hs (Nat.not_lt.mpr h53)
  have hm := excessBits_min a 11 hne
  rcases Nat.lt_trichotomy (excessBits a 11) e with h | h | h
  · have hp : 2 ^ (53 + excessBits a 11) ≤ 2 ^ (52 + e) :=
      Nat.pow_le_pow_right (by decide) (by omega)
    exact absurd (Nat.lt_of_lt_of_le hs hp) (Nat.not_lt.mpr h1)
  · exact h
  · have hp : 2 ^ (53 + e) ≤ 2 ^ (52 + excessBits a 11) :=
      Nat.pow_le_pow_right (by decide) (by omega)
    exact absurd (Nat.lt_of_lt_of_le h2 hp) (Nat.not_lt.mpr hm)

theorem nearestMultiple_zero (a : Nat) : nearestMultiple a 0 = a := by
  simp [nearestMultiple, roundHalfEven, Nat.mod_one]

/-- The value of `float64(b)`: in the binade `2 ^ (52 + e) ≤ |b| < 2 ^ (53 + e)`
it is `|b|` rounded to the nearest multiple of `2 ^ e`, ties to even. -/
theorem float64OfInt64_natAbs_binade (b : Int) (e : Nat) (h1 : 2 ^ (52 + e) ≤ b.natAbs)
    (h2 : b.natAbs < 2 ^ (53 + e)) (h64 : b.natAbs < 2 ^ 64) :
    (float64OfInt64 b).natAbs = nearestMultiple b.natAbs e := by
  by_cases h53 : b.natAbs < 2 ^ 53
  · have he : e = 0 := by
      by_contra hne
      have hp : 2 ^ 53 ≤ 2 ^ (52 + e) := Nat.pow_le_pow_right (by decide) (by omega)
      exact absurd (Nat.lt_of_lt_of_le h53 hp) (Nat.not_lt.mpr h1)
    subst he
    rw [float64OfInt64_natAbs_exact b h53, nearestMultiple_zero]
  · have hx := excessBits_eq b.natAbs e h1 h2 (Nat.le_of_not_lt h53) h64
    unfold float64OfInt64
    simp only [h53, if_false, Float64.natAbs, hx, Int.toNat_ofNat, nearestMultiple]

theorem byteString_kb (b : Int) (h1 : 1024 ≤ b) (h2 : b < 1024 ^ 2) :
    byteString b = formatQuotient2 b.toNat 1024 ++ "KB" := by
  have a1 : ¬ b < 2 ^ 10 := by omega
  have a2 : b < 2 ^ 20 := by omega
  simp only [byteString, a1, a2, if_false, if_true]
  rw [sprintfF2_divPow2_small b 10 (by omega) (by omega) (by decide)]
  rfl

theorem byteString_mb (b : Int) (h1 : 1024 ^ 2 ≤ b) (h2 : b < 1024 ^ 3) :
    byteString b = formatQuotient2 b.toNat (1024 ^ 2) ++ "MB" := by
  have a1 : ¬ b < 2 ^ 10 := by omega
  have a2 : ¬ b < 2 ^ 20 := by omega
  have a3 : b < 2 ^ 30 := by omega
  simp only [byteString, a1, a2, a3, if_false, if_true]
  rw [sprintfF2_divPow2_small b 20 (by omega) (by omega) (by decide)]
  rfl

theorem byteString_gb (b : Int) (h1 : 1024 ^ 3 ≤ b) :
    byteString b = formatQuotient2 (float64OfInt64 b).natAbs (1024 ^ 3) ++ "GB" := by
  have a1 : ¬ b < 2 ^ 10 := by omega
  have a2 : ¬ b < 2 ^ 20 := by omega
  have a3 : ¬ b < 2 ^ 30 := by omega
  have a4 : ¬ b < 0 := by omega
  simp only [byteString, a1, a2, a3, if_false]
  rw [sprintfF2_divPow2 b 30 (by decide)]
  simp only [a4, if_false]
  rfl

theorem float64OfInt64_natAbs_le (b : Int) (h : b.natAbs ≤ 2 ^ 53) :
    (float64OfInt64 b).natAbs = b.natAbs := by
  rcases Nat.lt_or_eq_of_le h with h | h
  · exact float64OfInt64_natAbs_exact b h
  · have hb : b = 2 ^ 53 ∨ b = -2 ^ 53 := by omega
    rcases hb with hb | hb <;> subst hb <;> decide

theorem byteString_gb_exact (b : Int) (h1 : 1024 ^ 3 ≤ b) (h2 : b ≤ 2 ^ 53) :
    byteString b = formatQuotient2 b.toNat (1024 ^ 3) ++ "GB" := by
  have habs : b.natAbs = b.toNat := by omega
  rw [byteString_gb b h1, float64OfInt64_natAbs_le b (by omega), habs]

theorem byteString_gb_binade (b : Int) (hhi : b < 2 ^ 63) (e : Nat)
    (h1 : 2 ^ (52 + e) ≤ b.toNat) (h2 : b.toNat < 2 ^ (53 + e)) :
    byteString b = formatQuotient2 (nearestMultiple b.toNat e) (1024 ^ 3) ++ "GB" := by
  have hp : 2 ^ 52 ≤ 2 ^ (52 + e) := Nat.pow_le_pow_right (by decide) (by omega)
  have h52 : 2 ^ 52 ≤ b.toNat := Nat.le_trans hp h1
  have habs : b.natAbs = b.toNat := by omega
  rw [byteString_gb b (by omega),
    float64OfInt64_natAbs_binade b e (by rw [habs]; exact h1) (by rw [habs]; exact h2)
      (by omega), habs]

theorem usageMBString_eq (b : Int) :
    usageMBString b =
      (if b < 0 then "-" else "") ++ formatQuotient2 (float64OfInt64 b).natAbs (1024 ^ 2) := by
  unfold usageMBString
  rw [sprintfF2_divPow2 b 20 (by decide)]
  rfl

/-- C1, as stated, fails: from `1024^3` on the printed number is not always
the quotient `b/1024^3` with two fraction digits.  For `b = 4611686018432756613`
the quotient is `4294967296.0049...`, which gives "4294967296.00" by rounding and
by truncation, and `byteString` prints "4294967296.01GB". -/
theorem byteString_gb_not_exact :
    byteString 4611686018432756613 = "4294967296.01GB" ∧
    formatQuotient2 4611686018432756613 (1024 ^ 3) = "4294967296.00" ∧
    100 * 4611686018432756613 / 1024 ^ 3 = 429496729600 ∧
    1024 ^ 3 ≤ (4611686018432756613 : Int) ∧ (4611686018432756613 : Int) < 2 ^ 63 := by
  decide

/-- C1, amended. For every int64 byte count `b`, `byteString b` carries exactly
one of the four unit suffixes, chosen by the base-1024 thresholds: below 1024 it
is the decimal integer `b` followed by "B"; in `[1024, 1024^2)` it is `b/1024`
with exactly two fraction digits followed by "KB"; in `[1024^2, 1024^3)` it is
`b/1024^2` with two fraction digits followed by "MB"; from `1024^3` up to `2^53`
it is `b/1024^3` with two fraction digits followed by "GB"; above `2^53`, with
`2^(52+e) ≤ b < 2^(53+e)`, it is `b'/1024^3` with two fraction digits followed
by "GB", where `b'` is `b` rounded to the nearest multiple of `2^e` (ties to the
even multiple), the float64 value of `b`; and `byteString 0 = "0B"`. -/
theorem byteString_units (b : Int) (hlo : -2 ^ 63 ≤ b) (hhi : b < 2 ^ 63) :
    (b < 1024 → byteString b = toString b ++ "B") ∧
    (1024 ≤ b → b < 1024 ^ 2 → byteString b = formatQuotient2 b.toNat 1024 ++ "KB") ∧
    (1024 ^ 2 ≤ b → b < 1024 ^ 3 →
      byteString b = formatQuotient2 b.toNat (1024 ^ 2) ++ "MB") ∧
    (1024 ^ 3 ≤ b → b ≤ 2 ^ 53 →
      byteString b = formatQuotient2 b.toNat (1024 ^ 3) ++ "GB") ∧
    (∀ e : Nat, 2 ^ (52 + e) ≤ b.toNat → b.toNat < 2 ^ (53 + e) →
      byteString b = formatQuotient2 (nearestMultiple b.toNat e) (1024 ^ 3) ++ "GB") ∧
    byteString 0 = "0B" := by
  refine ⟨?_, byteString_kb b, byteString_mb b, byteString_gb_exact b,
    byteString_gb_binade b hhi, by decide⟩
  intro h
  have h' : b < 2 ^ 10 := by omega
  simp only [byteString, h', if_true]

theorem byteString_units_witness :
    byteString 4611686018432756613 =
        formatQuotient2 (nearestMultiple 4611686018432756613 10) (1024 ^ 3) ++ "GB" ∧
    nearestMultiple 4611686018432756613 10 = 4611686018432756736 ∧
    byteString 1536 = formatQuotient2 1536 1024 ++ "KB" ∧ byteString 1536 = "1.50KB" :=
  ⟨(byteString_units 4611686018432756613 (by decide) (by decide)).2.2.2.2.1 10
      (by decide) (by decide),
    by decide,
    (byteString_units 1536 (by decide) (by decide)).2.1 (by decide) (by decide),
    by decide⟩

/-- C2, as stated, fails: `usage_mb` is not always the byte count divided by
`1024^2` with two fraction digits.  For `b = 4611686018427728422` the quotient is
`4398046511104.3247...`, which gives "4398046511104.32" by rounding and by
truncation, and the program prints "4398046511104.33". -/
theorem usageMB_not_exact :
    usageMBString 4611686018427728422 = "4398046511104.33" ∧
    formatQuotient2 4611686018427728422 (1024 ^ 2) = "4398046511104.32" ∧
    100 * 4611686018427728422 / 1024 ^ 2 = 439804651110432 ∧
    1024 ^ 3 ≤ (4611686018427728422 : Int) ∧ (4611686018427728422 : Int) < 2 ^ 63 := by
  decide

/-- C2, amended. The `usage_mb` string is always a megabyte value printed with
exactly two fraction digits, whatever unit `usage` carries: it is `b/1024^2`
whenever `|b| ≤ 2^53`, and above, with `2^(52+e) ≤ |b| < 2^(53+e)`, it is
`b'/1024^2` where `b'` is `b` rounded to the nearest multiple of `2^e` (ties to
the even multiple), the float64 value of `b`.  For `1024^2 ≤ b < 1024^3` the
usage string is `usage_mb` followed by "MB"; for `b ≥ 1024^3` the usage string is
the gigabyte value of the same number (`b`, or `b'` above `2^53`) followed by
"GB" while `usage_mb` is still its megabyte value; `b = 2 * 1024^3` gives
"2.00GB" and "2048.00". -/
theorem usageMB_always_megabytes (b : Int) (hlo : -2 ^ 63 ≤ b) (hhi : b < 2 ^ 63) :
    (b.natAbs ≤ 2 ^ 53 →
      usageMBString b = (if b < 0 then "-" else "") ++ formatQuotient2 b.natAbs (1024 ^ 2)) ∧
    (∀ e : Nat, 2 ^ (52 + e) ≤ b.natAbs → b.natAbs < 2 ^ (53 + e) →
      usageMBString b =
        (if b < 0 then "-" else "") ++
          formatQuotient2 (nearestMultiple b.natAbs e) (1024 ^ 2)) ∧
    (1024 ^ 2 ≤ b → b < 1024 ^ 3 → byteString b = usageMBString b ++ "MB") ∧
    (1024 ^ 3 ≤ b → b ≤ 2 ^ 53 →
      byteString b = formatQuotient2 b.toNat (1024 ^ 3) ++ "GB" ∧
      usageMBString b = formatQuotient2 b.toNat (1024 ^ 2)) ∧
    (∀ e : Nat, 2 ^ (52 + e) ≤ b.toNat → b.toNat < 2 ^ (53 + e) →
      byteString b = formatQuotient2 (nearestMultiple b.toNat e) (1024 ^ 3) ++ "GB" ∧
      usageMBString b = formatQuotient2 (nearestMultiple b.toNat e) (1024 ^ 2)) ∧
    byteString (2 * 1024 ^ 3) = "2.00GB" ∧ usageMBString (2 * 1024 ^ 3) = "2048.00" := by
  have h64 : b.natAbs < 2 ^ 64 := by omega
  refine ⟨?_, ?_, ?_, ?_, ?_, by decide, by decide⟩
  · intro h53
    rw [usageMBString_eq, float64OfInt64_natAbs_le b h53]
  · intro e h1 h2
    rw [usageMBString_eq, float64OfInt64_natAbs_binade b e h1 h2 h64]
  · intro h1 h2
    have a1 : ¬ b < 2 ^ 10 := by omega
    have a2 : ¬ b < 2 ^ 20 := by omega
    have a3 : b < 2 ^ 30 := by omega
    simp only [byteString, usageMBString, a1, a2, a3, if_false, if_true]
  · intro h1 h2
    have a4 : ¬ b < 0 := by omega
    have habs : b.natAbs = b.toNat := by omega
    refine ⟨byteString_gb_exact b h1 h2, ?_⟩
    rw [usageMBString_eq, float64OfInt64_natAbs_le b (by omega), habs]
    simp only [a4, if_false]
    rfl
  · intro e h1 h2
    have hp : 2 ^ 52 ≤ 2 ^ (52 + e) := Nat.pow_le_pow_right (by decide) (by omega)
    have h52 : 2 ^ 52 ≤ b.toNat := Nat.le_trans hp h1
    have a4 : ¬ b < 0 := by omega
    have habs : b.natAbs = b.toNat := by omega
    refine ⟨byteString_gb_binade b hhi e h1 h2, ?_⟩
    rw [usageMBString_eq,
      float64OfInt64_natAbs_binade b e (by rw [habs]; exact h1) (by rw [habs]; exact h2) h64,
      habs]
    simp only [a4, if_false]
    rfl

theorem usageMB_always_megabytes_witness :
    (byteString 4611686018427728422 =
        formatQuotient2 (nearestMultiple 4611686018427728422 10) (1024 ^ 3) ++ "GB" ∧
      usageMBString 4611686018427728422 =
        formatQuotient2 (nearestMultiple 4611686018427728422 10) (1024 ^ 2)) ∧
    nearestMultiple 4611686018427728422 10 = 4611686018427728896 ∧
    byteString 15990000 = usageMBString 15990000 ++ "MB" ∧
    usageMBString 15990000 = "15.25" :=
  ⟨(usageMB_always_megabytes 4611686018427728422 (by decide) (by decide)).2.2.2.2.1 10
      (by decide) (by decide),
    by decide,
    (usageMB_always_megabytes 15990000 (by decide) (by decide)).2.2.1 (by decide) (by decide),
    by decide⟩

/-! ### `strings.Fields` and `Sscanf` -/

theorem fieldsGo_spaces (pre s : List Char) (h : ∀ c ∈ pre, isSpace c = true) :
    fieldsGo (pre ++ s) none = fieldsGo s none := by
  induction pre with
  | nil => rfl
  | cons c cs ih =>
    have hc : isSpace c = true := h c (List.mem_cons_self c cs)
    have hcs : ∀ d ∈ cs, isSpace d = true := fun d hd => h d (List.mem_cons_of_mem c hd)
    simp only [List.cons_append, fieldsGo, hc, if_true]
    exact ih hcs

theorem fieldsGo_token (tok : List Char) (h : ∀ c ∈ tok, isSpace c = false) (c : Char)
    (hc : isSpace c = true) (rest acc : List Char) :
    fieldsGo (tok ++ c :: rest) (some acc) = (acc.reverse ++ tok) :: fieldsGo rest none := by
  induction tok generalizing acc with
  | nil => simp [fieldsGo, hc]
  | cons t ts ih =>
    have ht : isSpace t = false := h t (List.mem_cons_self t ts)
    have hts : ∀ d ∈ ts, isSpace d = false := fun d hd => h d (List.mem_cons_of_mem t hd)
    simp [fieldsGo, ht, ih hts (t :: acc)]

theorem fields_all_space (s : List Char) (h : ∀ c ∈ s, isSpace c = true) : fields s = [] := by
  have := fieldsGo_spaces s [] h
  simpa [fields, fieldsGo] using this

theorem fields_first (pre tok rest : List Char) (c : Char)
    (hpre : ∀ d ∈ pre, isSpace d = true) (hne : tok ≠ [])
    (htok : ∀ d ∈ tok, isSpace d = false) (hc : isSpace c = true) :
    fields (pre ++ tok ++ c :: rest) = tok :: fields rest := by
  unfold fields
  rw [List.append_assoc, fieldsGo_spaces pre _ hpre]
  cases tok with
  | nil => exact absurd rfl hne
  | cons t ts =>
    have ht : isSpace t = false := htok t (List.mem_cons_self t ts)
    have hts : ∀ d ∈ ts, isSpace d = false := fun d hd => htok d (List.mem_cons_of_mem t hd)
    simp [fieldsGo, ht, fieldsGo_token ts hts c hc rest [t]]

theorem digitChar_spec (d : Nat) (h : d < 10) :
    DigitChar (Nat.digitChar d) ∧ (Nat.digitChar d).toNat - 48 = d := by
  unfold DigitChar
  interval_cases d <;> decide

theorem toDigitsCore_spec (fuel : Nat) : ∀ (n : Nat) (ds : List Char), n < fuel →
    (∀ c ∈ ds, DigitChar c) →
    (∀ c ∈ Nat.toDigitsCore 10 fuel n ds, DigitChar c) ∧
    Nat.toDigitsCore 10 fuel n ds ≠ [] ∧
    digitsValue (Nat.toDigitsCore 10 fuel n ds) =
      ds.foldl (fun a c => 10 * a + (c.toNat - 48)) n := by
  induction fuel with
  | zero => intro n ds h; omega
  | succ f ih =>
    intro n ds hn hds
    have hd := digitChar_spec (n % 10) (Nat.mod_lt n (by decide))
    have hcons : ∀ c ∈ Nat.digitChar (n % 10) :: ds, DigitChar c := by
      intro c hc
      rcases List.mem_cons.mp hc with h | h
      · exact h ▸ hd.1
      · exact hds c h
    unfold Nat.toDigitsCore
    simp only
    split
    · rename_i h0
      refine ⟨hcons, List.cons_ne_nil _ _, ?_⟩
      have hlt : n % 10 = n := by omega
      simp only [digitsValue, List.foldl_cons, hd.2, Nat.mul_zero, Nat.zero_add]
      rw [hlt]
    · rename_i h0
      have hlt : n / 10 < f := by omega
      obtain ⟨h1, h2, h3⟩ := ih (n / 10) (Nat.digitChar (n % 10) :: ds) hlt hcons
      refine ⟨h1, h2, ?_⟩
      rw [h3]
      simp only [List.foldl_cons, hd.2]
      congr 1
      omega

theorem toDigits_spec (n : Nat) :
    (∀ c ∈ Nat.toDigits 10 n, DigitChar c) ∧ Nat.toDigits 10 n ≠ [] ∧
    digitsValue (Nat.toDigits 10 n) = n := by
  have := toDigitsCore_spec (n + 1) n [] (Nat.lt_succ_self n) (by simp)
  simpa [Nat.toDigits] using this

theorem sscanfInt_digits (ds : List Char) (hne : ds ≠ []) (hds : ∀ c ∈ ds, DigitChar c)
    (hv : digitsValue ds < 2 ^ 63) : sscanfInt ds = some (digitsValue ds : Int) := by
  have htw : ds.takeWhile Char.isDigit = ds :=
    List.takeWhile_eq_self_iff.mpr (fun c hc => (hds c hc).1)
  cases ds with
  | nil => exact absurd rfl hne
  | cons c cs =>
    have hc := hds c (List.mem_cons_self c cs)
    have hm : (match c :: cs with
        | '-' :: r => (true, r)
        | '+' :: r => (false, r)
        | r => (false, r)) = (false, c :: cs) := by
      split
      · rename_i heq
        exact absurd (List.cons.inj heq).1 hc.2.2.1
      · rename_i heq
        exact absurd (List.cons.inj heq).1 hc.2.2.2
      · rfl
    unfold sscanfInt
    simp only [hm, htw]
    have h1 : (-2 : Int) ^ 63 ≤ (digitsValue (c :: cs) : Int) := by
      have : (0 : Int) ≤ (digitsValue (c :: cs) : Int) := Int.ofNat_nonneg _
      omega
    have h2 : (digitsValue (c :: cs) : Int) < 2 ^ 63 := by exact_mod_cast hv
    simp [h2]
    omega

theorem sscanfInt_neg_digits (ds : List Char) (hne : ds ≠ []) (hds : ∀ c ∈ ds, DigitChar c)
    (hv : digitsValue ds ≤ 2 ^ 63) : sscanfInt ('-' :: ds) = some (-(digitsValue ds : Int)) := by
  have htw : ds.takeWhile Char.isDigit = ds :=
    List.takeWhile_eq_self_iff.mpr (fun c hc => (hds c hc).1)
  unfold sscanfInt
  simp only [htw, hne, if_false, if_true]
  have h1 : -(2 : Int) ^ 63 ≤ -(digitsValue ds : Int) := by
    have : (digitsValue ds : Int) ≤ 2 ^ 63 := by exact_mod_cast hv
    omega
  have h2 : -(digitsValue ds : Int) < 2 ^ 63 := by
    have : (0 : Int) ≤ (digitsValue ds : Int) := Int.ofNat_nonneg _
    omega
  exact if_pos ⟨h1, h2⟩

/-- Scanning the decimal text of an `int64` gives the number back, and the text
has no space in it. -/
theorem sscanfInt_toString (n : Int) (hlo : -2 ^ 63 ≤ n) (hhi : n < 2 ^ 63) :
    sscanfInt (toString n).data = some n ∧ (toString n).data ≠ [] ∧
    ∀ c ∈ (toString n).data, isSpace c = false := by
  cases n with
  | ofNat m =>
    obtain ⟨h1, h2, h3⟩ := toDigits_spec m
    have hdata : (toString (Int.ofNat m)).data = Nat.toDigits 10 m := rfl
    have hm : m < 2 ^ 63 := by
      have : (m : Int) < 2 ^ 63 := hhi
      exact_mod_cast this
    rw [hdata]
    refine ⟨?_, h2, fun c hc => (h1 c hc).2.1⟩
    rw [sscanfInt_digits _ h2 h1 (by rw [h3]; exact hm), h3]
    rfl
  | negSucc m =>
    obtain ⟨h1, h2, h3⟩ := toDigits_spec (m + 1)
    have hdata : (toString (Int.negSucc m)).data = '-' :: Nat.toDigits 10 (m + 1) := rfl
    have hm : m + 1 ≤ 2 ^ 63 := by
      have : -(2 : Int) ^ 63 ≤ Int.negSucc m := hlo
      rw [Int.negSucc_eq] at this
      omega
    rw [hdata]
    refine ⟨?_, List.cons_ne_nil _ _, ?_⟩
    · rw [sscanfInt_neg_digits _ h2 h1 (by rw [h3]; exact hm), h3, Int.negSucc_eq]
      rfl
    · intro c hc
      rcases List.mem_cons.mp hc with h | h
      · subst h; decide
      · exact (h1 c h).2.1

/-! ### The report as a list of measurement jobs -/

theorem length_runJobs (W : World) (ts : List Job) :
    ∀ k, (runJobs W k ts).length = ts.length := by
  induction ts with
  | nil => intro k; rfl
  | cons t ts ih => intro k; simp [runJobs, ih]

theorem runJobs_append (W : World) (a b : List Job) : ∀ k,
    runJobs W k (a ++ b) = runJobs W k a ++ runJobs W (k + a.length) b := by
  induction a with
  | nil => intro k; simp [runJobs]
  | cons t ts ih =>
    intro k
    have hk : k + 1 + ts.length = k + (ts.length + 1) := by omega
    show mkEntry W k t :: runJobs W (k + 1) (ts ++ b) = _
    rw [ih (k + 1), hk]
    rfl

theorem getElem?_runJobs (W : World) (ts : List Job) : ∀ k j,
    (runJobs W k ts)[j]? = (ts[j]?).map (mkEntry W (k + j)) := by
  induction ts with
  | nil => intro k j; simp [runJobs]
  | cons t ts ih =>
    intro k j
    cases j with
    | zero => simp [runJobs]
    | succ j =>
      have hk : k + 1 + j = k + (j + 1) := by omega
      simp only [runJobs, List.getElem?_cons_succ, ih, hk]

theorem containerJobs_cons_volume (name short : String) (ports : PortMap) (m : MountPoint)
    (ms : List MountPoint) (h : m.MountType = "volume") :
    containerJobs name short ports (m :: ms) =
      ⟨name, short, ports, m.Name⟩ :: containerJobs name short ports ms := by
  simp [containerJobs, volumeMounts, h]

theorem containerJobs_cons_other (name short : String) (ports : PortMap) (m : MountPoint)
    (ms : List MountPoint) (h : ¬ m.MountType = "volume") :
    containerJobs name short ports (m :: ms) = containerJobs name short ports ms := by
  simp [containerJobs, volumeMounts, h]

/-- The mounts loop, when the name and the short id are available. -/
theorem volumeLoop_eq (W : World) (nm id short : String) (ports : PortMap)
    (hs : sliceTo id 12 = some short) (mounts : List MountPoint) : ∀ results,
    volumeLoop W (some nm) id ports mounts results =
      some (results ++ runJobs W results.length
        (containerJobs (trimPrefix nm "/") short ports mounts)) := by
  induction mounts with
  | nil => intro results; simp [volumeLoop, containerJobs, volumeMounts, runJobs]
  | cons m ms ih =>
    intro results
    by_cases h : m.MountType = "volume"
    · rw [containerJobs_cons_volume _ _ _ _ _ h]
      simp only [volumeLoop, h, if_true, hs, ih, runJobs, List.length_append,
        List.length_singleton, List.append_assoc, List.singleton_append]
      rfl
    · rw [containerJobs_cons_other _ _ _ _ _ h]
      simp only [volumeLoop, h, if_false, ih]

/-- The mounts loop without any volume-type mount appends nothing. -/
theorem volumeLoop_no_volume (W : World) (name : Option String) (id : String) (ports : PortMap)
    (mounts : List MountPoint) (h : volumeMounts mounts = []) : ∀ results,
    volumeLoop W name id ports mounts results = some results := by
  induction mounts with
  | nil => intro results; rfl
  | cons m ms ih =>
    intro results
    have hm : ¬ m.MountType = "volume" := by
      intro hv
      simp [volumeMounts, hv] at h
    have hms : volumeMounts ms = [] := by
      simpa [volumeMounts, hm] using h
    simp only [volumeLoop, hm, if_false, ih hms]

/-- The mounts loop panics at the first volume-type mount when the name or the
short id is not available. -/
theorem volumeLoop_panic (W : World) (name : Option String) (id : String) (ports : PortMap)
    (hbad : name = none ∨ sliceTo id 12 = none)
    (mounts : List MountPoint) (h : volumeMounts mounts ≠ []) : ∀ results,
    volumeLoop W name id ports mounts results = none := by
  induction mounts with
  | nil => exact absurd rfl h
  | cons m ms ih =>
    intro results
    by_cases hm : m.MountType = "volume"
    · rcases hbad with hb | hb
      · subst hb
        simp [volumeLoop, hm]
      · cases name <;> simp [volumeLoop, hm, hb]
    · have hms : volumeMounts ms ≠ [] := by
        simpa [volumeMounts, hm] using h
      simp only [volumeLoop, hm, if_false, ih hms]

theorem containerLoop_eq (W : World) (cs : List Container) (hwf : WellFormed cs) : ∀ i results,
    containerLoop W i cs results =
      some (results ++ runJobs W results.length (listJobs W i cs)) := by
  induction cs with
  | nil => intro i results; simp [containerLoop, listJobs, runJobs]
  | cons c cs ih =>
    intro i results
    have hc := hwf c (List.mem_cons_self c cs)
    have hcs : WellFormed cs := fun d hd => hwf d (List.mem_cons_of_mem c hd)
    unfold containerLoop listJobs
    cases hi : W.containerInspect i c.ID with
    | error e => simp only [ih hcs, List.nil_append]
    | ok inspect =>
      obtain ⟨nm, rest, hnames⟩ := List.exists_cons_of_ne_nil hc.1
      have hs : sliceTo c.ID 12 = some (String.mk (c.ID.data.take 12)) := by
        simp only [sliceTo, hc.2, if_true]
      simp only [hnames, List.head?_cons, List.headD_cons,
        volumeLoop_eq W nm c.ID _ inspect.Ports hs inspect.Mounts results, ih hcs,
        runJobs_append, List.length_append, length_runJobs, List.append_assoc]

/-! ### Ports and entries of the list-all report -/

theorem firstPort_all_empty (l : PortMap) (h : ∀ p ∈ l, p.2 = []) : firstPort l = "" := by
  induction l with
  | nil => rfl
  | cons p ps ih =>
    obtain ⟨key, bs⟩ := p
    have hb : bs = [] := h (key, bs) (List.mem_cons_self _ _)
    subst hb
    simp only [firstPort]
    exact ih (fun q hq => h q (List.mem_cons_of_mem _ hq))

theorem firstPort_mem (l : PortMap) (h : ∃ p ∈ l, p.2 ≠ []) :
    ∃ p ∈ l, ∃ b bs, p.2 = b :: bs ∧ firstPort l = b.HostPort := by
  induction l with
  | nil =>
    obtain ⟨p, hp, _⟩ := h
    exact absurd hp (List.not_mem_nil p)
  | cons p ps ih =>
    obtain ⟨key, bs⟩ := p
    cases bs with
    | nil =>
      have h' : ∃ q ∈ ps, q.2 ≠ [] := by
        obtain ⟨q, hq, hne⟩ := h
        rcases List.mem_cons.mp hq with e | e
        · subst e
          exact absurd rfl hne
        · exact ⟨q, e, hne⟩
      obtain ⟨q, hq, b, bs', e1, e2⟩ := ih h'
      exact ⟨q, List.mem_cons_of_mem _ hq, b, bs', e1, by simpa [firstPort] using e2⟩
    | cons b bs' =>
      exact ⟨(key, b :: bs'), List.mem_cons_self _ _, b, bs', rfl, rfl⟩

theorem port_key_absent (e : VolumeStat) (h : e.Port = "") :
    ∀ val, ("port", val) ∉ encodeVolumeStat e := by
  intro val hmem
  unfold encodeVolumeStat at hmem
  rw [h] at hmem
  by_cases hu : e.UsageMB = "" <;> simp [hu] at hmem

theorem trimPrefix_slash (n : String) : trimPrefix ("/" ++ n) "/" = n := by
  have hd : ("/" ++ n).data = '/' :: n.data := by
    rw [String.data_append]
    rfl
  have hp : ("/" : String).data = ['/'] := rfl
  unfold trimPrefix
  rw [hd, hp]
  simp

theorem mem_listJobs (W : World) (cs : List Container) : ∀ (i j : Nat) (c : Container)
    (inspect : ContainerJSON) (m : MountPoint), cs[j]? = some c →
    W.containerInspect (i + j) c.ID = .ok inspect → m ∈ inspect.Mounts →
    m.MountType = "volume" →
    (⟨trimPrefix (c.Names.headD "") "/", String.mk (c.ID.data.take 12), inspect.Ports, m.Name⟩ :
      Job) ∈ listJobs W i cs := by
  induction cs with
  | nil => intro i j c inspect m hc; simp at hc
  | cons d ds ih =>
    intro i j c inspect m hc hi hm hv
    unfold listJobs
    cases j with
    | zero =>
      simp only [List.getElem?_cons_zero, Option.some.injEq] at hc
      subst hc
      rw [Nat.add_zero] at hi
      rw [hi]
      apply List.mem_append_left
      simp only [containerJobs, volumeMounts, List.mem_map, List.mem_filter, decide_eq_true_eq]
      exact ⟨m, ⟨hm, hv⟩, rfl⟩
    | succ j =>
      apply List.mem_append_right
      rw [List.getElem?_cons_succ] at hc
      have hi' : W.containerInspect (i + 1 + j) c.ID = .ok inspect := by
        rw [← hi]
        congr 1
        omega
      exact ih (i + 1) j c inspect m hc hi' hm hv

theorem mem_runJobs (W : World) (ts : List Job) (t : Job) (h : t ∈ ts) :
    ∀ k, ∃ j, mkEntry W (k + j) t ∈ runJobs W k ts := by
  intro k
  obtain ⟨j, hj⟩ := List.mem_iff_getElem?.mp h
  refine ⟨j, List.mem_iff_getElem?.mpr ⟨j, ?_⟩⟩
  rw [getElem?_runJobs, hj]
  rfl

theorem statsHandler_eq (W : World) (cs : List Container) (hclient : W.newClient = none)
    (hlist : W.containerList = .ok cs) (hwf : WellFormed cs) :
    statsHandler W =
      .response ⟨200, .json (encodeResults (runJobs W 0 (listJobs W 0 cs)))⟩ := by
  unfold statsHandler
  rw [hclient, hlist]
  simp only [containerLoop_eq W cs hwf 0 [], List.nil_append, List.length_nil]

/-- C3. For every running container with display name `"/" ++ n` and every
volume-type mount of it named `v` that is measured at `b` bytes, the list-all
report has the entry with container_name `n`, the first 12 characters of the
identifier, volume_name `v`, usage `byteString b`, usage_mb the two-decimal
megabyte string of `b`, and an empty, omitted port when the container has no
published ports.  In the `web1` scenario the response is exactly the one entry
web1 / abcdef123456 / data-vol / 15.25MB / 15.25 without a port key. -/
theorem statsHandler_volume_entry (W : World) (cs : List Container) (i : Nat) (c : Container)
    (inspect : ContainerJSON) (n v : String) (b : Int)
    (hclient : W.newClient = none) (hlist : W.containerList = .ok cs) (hwf : WellFormed cs)
    (hc : cs[i]? = some c) (hname : c.Names.head? = some ("/" ++ n))
    (hinspect : W.containerInspect i c.ID = .ok inspect)
    (hmount : (⟨"volume", v⟩ : MountPoint) ∈ inspect.Mounts)
    (hb : ∀ k, measureVolumeBytes W k v = b) :
    (∃ results e, statsHandler W = .response ⟨200, .json (encodeResults results)⟩ ∧
      e ∈ results ∧ e.ContainerName = n ∧ sliceTo c.ID 12 = some e.ContainerID ∧
      e.VolumeName = v ∧ e.Usage = byteString b ∧ e.UsageMB = usageMBString b ∧
      ((∀ p ∈ inspect.Ports, p.2 = []) →
        e.Port = "" ∧ ∀ val, ("port", val) ∉ encodeVolumeStat e)) ∧
    statsHandler web1World = .response ⟨200, .json (.array
      [[("container_name", "web1"), ("container_id", "abcdef123456"),
        ("volume_name", "data-vol"), ("usage", "15.25MB"), ("usage_mb", "15.25")]])⟩ := by
  refine ⟨?_, by decide⟩
  have hi : W.containerInspect (0 + i) c.ID = .ok inspect := by rw [Nat.zero_add]; exact hinspect
  have ht := mem_listJobs W cs 0 i c inspect ⟨"volume", v⟩ hc hi hmount rfl
  obtain ⟨j, hj⟩ := mem_runJobs W _ _ ht 0
  have hhead : c.Names.headD "" = "/" ++ n := by
    cases hnames : c.Names with
    | nil => rw [hnames] at hname; simp at hname
    | cons x xs =>
      rw [hnames] at hname
      simp only [List.head?_cons, Option.some.injEq] at hname
      simp [hname]
  have hid : 12 ≤ c.ID.data.length := (hwf c (List.mem_iff_getElem?.mpr ⟨i, hc⟩)).2
  refine ⟨_, _, statsHandler_eq W cs hclient hlist hwf, hj, ?_, ?_, rfl, ?_, ?_, ?_⟩
  · simp only [mkEntry, hhead]
    exact trimPrefix_slash n
  · simp only [sliceTo, hid, if_true, mkEntry]
  · simp only [mkEntry, hb]
  · simp only [mkEntry, hb]
  · intro hp
    have hport : (mkEntry W (0 + j)
        ⟨trimPrefix (c.Names.headD "") "/", String.mk (c.ID.data.take 12),
          inspect.Ports, v⟩).Port = "" := by
      simp only [mkEntry]
      apply firstPort_all_empty
      intro p hmem
      exact hp p ((W.rangeOrder_perm _ _).mem_iff.mp hmem)
    exact ⟨hport, port_key_absent _ hport⟩

theorem statsHandler_volume_entry_witness :
    ∃ results e, statsHandler web1World = .response ⟨200, .json (encodeResults results)⟩ ∧
      e ∈ results ∧ e.ContainerName = "web1" ∧
      sliceTo "abcdef1234567890" 12 = some e.ContainerID ∧
      e.VolumeName = "data-vol" ∧ e.Usage = byteString 15990000 ∧
      e.UsageMB = usageMBString 15990000 ∧
      ((∀ p ∈ ([] : PortMap), p.2 = []) →
        e.Port = "" ∧ ∀ val, ("port", val) ∉ encodeVolumeStat e) :=
  (statsHandler_volume_entry web1World [⟨"abcdef1234567890", ["/web1"]⟩] 0
    ⟨"abcdef1234567890", ["/web1"]⟩
    ⟨"abcdef1234567890", "/web1", [⟨"volume", "data-vol"⟩], []⟩ "web1" "data-vol" 15990000
    rfl rfl (by intro c hc; simp at hc; subst hc; decide) rfl rfl rfl (by simp)
    (fun _ => (by decide : measureVolumeBytes web1World 0 "data-vol" = 15990000))).1

theorem map_runJobs_keys (W : World) (ts : List Job) : ∀ k,
    (runJobs W k ts).map (fun e => (e.ContainerName, e.ContainerID, e.VolumeName)) =
      ts.map (fun t => (t.name, t.short, t.volume)) := by
  induction ts with
  | nil => intro k; rfl
  | cons t ts ih => intro k; simp [runJobs, mkEntry, ih]

theorem map_listJobs_keys (W : World) (cs : List Container) : ∀ i,
    (listJobs W i cs).map (fun t => (t.name, t.short, t.volume)) = reportKeys W i cs := by
  induction cs with
  | nil => intro i; rfl
  | cons c cs ih =>
    intro i
    unfold listJobs reportKeys
    rw [List.map_append, ih]
    cases W.containerInspect i c.ID <;> simp [containerJobs, volumeMounts]

theorem reportKeys_no_volume (W : World) (cs : List Container) : ∀ i,
    (∀ j c inspect, cs[j]? = some c → W.containerInspect (i + j) c.ID = .ok inspect →
      ∀ m ∈ inspect.Mounts, m.MountType ≠ "volume") → reportKeys W i cs = [] := by
  induction cs with
  | nil => intro i _; rfl
  | cons c cs ih =>
    intro i h
    unfold reportKeys
    have htail : reportKeys W (i + 1) cs = [] := by
      apply ih
      intro j d inspect hd hi
      have hi' : W.containerInspect (i + (j + 1)) d.ID = .ok inspect := by
        rw [← hi]
        congr 1
        omega
      exact h (j + 1) d inspect (by simpa using hd) hi'
    rw [htail, List.append_nil]
    cases hi : W.containerInspect i c.ID with
    | error e => rfl
    | ok inspect =>
      have := h 0 c inspect (by simp) (by simpa using hi)
      simp only [List.map_eq_nil_iff, List.filter_eq_nil_iff, decide_eq_true_eq]
      exact this

/-- C5. For every list of running containers returned by the backend (each with
a name and an identifier of at least 12 characters), the list-all report is the
concatenation, in enumeration order, over the containers whose inspection
succeeds, of one entry per mount of type "volume", in mount order, with
volume_name the mount's name; mounts of another type give no entry, so when no
inspected container has a volume-type mount the report has no entry. -/
theorem statsHandler_report_order (W : World) (cs : List Container)
    (hclient : W.newClient = none) (hlist : W.containerList = .ok cs) (hwf : WellFormed cs) :
    ∃ results, statsHandler W = .response ⟨200, .json (encodeResults results)⟩ ∧
      results.map (fun e => (e.ContainerName, e.ContainerID, e.VolumeName)) = reportKeys W 0 cs ∧
      ((∀ j c inspect, cs[j]? = some c → W.containerInspect j c.ID = .ok inspect →
          ∀ m ∈ inspect.Mounts, m.MountType ≠ "volume") → results = []) := by
  refine ⟨_, statsHandler_eq W cs hclient hlist hwf, ?_, ?_⟩
  · rw [map_runJobs_keys, map_listJobs_keys]
  · intro h
    have hk : reportKeys W 0 cs = [] := by
      apply reportKeys_no_volume
      intro j c inspect hc hi
      rw [Nat.zero_add] at hi
      exact h j c inspect hc hi
    have hm := map_runJobs_keys W (listJobs W 0 cs) 0
    rw [map_listJobs_keys, hk] at hm
    exact List.map_eq_nil_iff.mp hm

theorem statsHandler_report_order_witness :
    ∃ results, statsHandler mixedWorld = .response ⟨200, .json (encodeResults results)⟩ ∧
      results.map (fun e => (e.ContainerName, e.ContainerID, e.VolumeName)) =
        [("db", "0a1b2c3d4e5f", "pgdata"), ("db", "0a1b2c3d4e5f", "pglogs"),
         ("cache", "123456789abc", "redis")] := by
  obtain ⟨results, h1, h2, _⟩ :=
    statsHandler_report_order mixedWorld mixedContainers rfl rfl
      (by unfold WellFormed; decide)
  exact ⟨results, h1, h2.trans (by decide)⟩

/-! ### Port of an entry -/

theorem volumeLoop_some (W : World) (name : Option String) (id : String) (ports : PortMap)
    (mounts : List MountPoint) (results0 results : List VolumeStat)
    (h : volumeLoop W name id ports mounts results0 = some results) :
    ∃ nm short, results = results0 ++
      runJobs W results0.length (containerJobs nm short ports mounts) := by
  by_cases hv : volumeMounts mounts = []
  · rw [volumeLoop_no_volume W name id ports mounts hv] at h
    refine ⟨"", "", ?_⟩
    simp only [containerJobs, hv, List.map_nil, runJobs, List.append_nil]
    exact (Option.some.inj h).symm
  · cases hn : name with
    | none =>
      rw [volumeLoop_panic W name id ports (Or.inl hn) mounts hv] at h
      exact absurd h (by simp)
    | some nm =>
      cases hs : sliceTo id 12 with
      | none =>
        rw [volumeLoop_panic W name id ports (Or.inr hs) mounts hv] at h
        exact absurd h (by simp)
      | some short =>
        rw [hn, volumeLoop_eq W nm id short ports hs] at h
        exact ⟨_, _, (Option.some.inj h).symm⟩

theorem containerJobs_ports (nm short : String) (ports : PortMap) (mounts : List MountPoint)
    (t : Job) (h : t ∈ containerJobs nm short ports mounts) : t.ports = ports := by
  simp only [containerJobs, List.mem_map] at h
  obtain ⟨m, _, rfl⟩ := h
  rfl

/-- C6, as stated, fails: the two entries of the one container `proxy` carry
different ports, "8080" and "8443". -/
theorem port_differs_between_entries :
    statsHandler twoPortsWorld = .response ⟨200, .json (.array
      [[("container_name", "proxy"), ("container_id", "9f8e7d6c5b4a"), ("volume_name", "certs"),
        ("usage", "4.00KB"), ("usage_mb", "0.00"), ("port", "8080")],
       [("container_name", "proxy"), ("container_id", "9f8e7d6c5b4a"), ("volume_name", "logs"),
        ("usage", "4.00KB"), ("usage_mb", "0.00"), ("port", "8443")]])⟩ ∧
    ¬ (∀ e₁ e₂ : VolumeStat,
        some [e₁, e₂] =
          containerLoop twoPortsWorld 0 [⟨"9f8e7d6c5b4a39281706", ["/proxy"]⟩] [] →
        e₁.Port = e₂.Port) := by
  refine ⟨by decide, ?_⟩
  intro h
  have := h ⟨"proxy", "9f8e7d6c5b4a", "certs", "4.00KB", "0.00", "8080"⟩
    ⟨"proxy", "9f8e7d6c5b4a", "logs", "4.00KB", "0.00", "8443"⟩ (by decide)
  exact absurd this (by decide)

/-- C6, amended. In both handlers the port is resolved for each entry by its own
loop over the container's ports map: the entry's port is the first host port of
the first binding list with at least one host-port entry that this loop meets;
it is the first host port of some such binding list of the container when there
is one, and empty, hence omitted, when there is none; and when at most one
binding list has a host-port entry all entries of the container carry the same
port. -/
theorem port_resolved_per_entry (W : World) (name : Option String) (id : String)
    (ports : PortMap) (mounts : List MountPoint) (results0 results : List VolumeStat)
    (h : volumeLoop W name id ports mounts results0 = some results) :
    ∃ added, results = results0 ++ added ∧
      (∀ (j : Nat) (e : VolumeStat), added[j]? = some e →
        e.Port = firstPort (W.rangeOrder (results0.length + j) ports) ∧
        ((∀ p ∈ ports, p.2 = []) →
          e.Port = "" ∧ ∀ val, ("port", val) ∉ encodeVolumeStat e) ∧
        ((∃ p ∈ ports, p.2 ≠ []) →
          ∃ p ∈ ports, ∃ b bs, p.2 = b :: bs ∧ e.Port = b.HostPort)) ∧
      ((∀ p ∈ ports, ∀ q ∈ ports, p.2 ≠ [] → q.2 ≠ [] → p = q) →
        ∀ (j₁ j₂ : Nat) (e₁ e₂ : VolumeStat),
          added[j₁]? = some e₁ → added[j₂]? = some e₂ → e₁.Port = e₂.Port) := by
  obtain ⟨nm, short, hres⟩ := volumeLoop_some W name id ports mounts results0 results h
  have key : ∀ j e,
      (runJobs W results0.length (containerJobs nm short ports mounts))[j]? = some e →
      e.Port = firstPort (W.rangeOrder (results0.length + j) ports) := by
    intro j e he
    rw [getElem?_runJobs] at he
    cases ht : (containerJobs nm short ports mounts)[j]? with
    | none => rw [ht] at he; simp at he
    | some t =>
      rw [ht] at he
      simp only [Option.map_some', Option.some.injEq] at he
      have hp := containerJobs_ports nm short ports mounts t
        (List.mem_iff_getElem?.mpr ⟨j, ht⟩)
      rw [← he]
      simp only [mkEntry, hp]
  have hempty : ∀ k, (∀ p ∈ ports, p.2 = []) → firstPort (W.rangeOrder k ports) = "" := by
    intro k hp
    apply firstPort_all_empty
    intro p hmem
    exact hp p ((W.rangeOrder_perm _ _).mem_iff.mp hmem)
  have hsome : ∀ k, (∃ p ∈ ports, p.2 ≠ []) →
      ∃ p ∈ ports, ∃ b bs,
        p.2 = b :: bs ∧ firstPort (W.rangeOrder k ports) = b.HostPort := by
    intro k hp
    obtain ⟨p, hmem, hne⟩ := hp
    obtain ⟨q, hq, b, bs, e1, e2⟩ :=
      firstPort_mem (W.rangeOrder k ports) ⟨p, (W.rangeOrder_perm _ _).mem_iff.mpr hmem, hne⟩
    exact ⟨q, (W.rangeOrder_perm _ _).mem_iff.mp hq, b, bs, e1, e2⟩
  refine ⟨_, hres, ?_, ?_⟩
  · intro j e he
    have hport := key j e he
    refine ⟨hport, ?_, ?_⟩
    · intro hp
      have h0 : e.Port = "" := hport.trans (hempty _ hp)
      exact ⟨h0, port_key_absent e h0⟩
    · intro hp
      obtain ⟨p, hmem, b, bs, e1, e2⟩ := hsome (results0.length + j) hp
      exact ⟨p, hmem, b, bs, e1, hport.trans e2⟩
  · intro huniq j₁ j₂ e₁ e₂ h₁ h₂
    rw [key j₁ e₁ h₁, key j₂ e₂ h₂]
    by_cases hp : ∃ p ∈ ports, p.2 ≠ []
    · obtain ⟨p, hmem, b, bs, e1, e2⟩ := hsome (results0.length + j₁) hp
      obtain ⟨q, hmem', b', bs', e1', e2'⟩ := hsome (results0.length + j₂) hp
      have hpq : p = q := huniq p hmem q hmem' (by rw [e1]; simp) (by rw [e1']; simp)
      subst hpq
      rw [e1] at e1'
      have hb : b = b' := (List.cons.inj e1').1
      rw [e2, e2', hb]
    · have hall : ∀ p ∈ ports, p.2 = [] := by
        intro p hmem
        by_contra hne
        exact hp ⟨p, hmem, hne⟩
      rw [hempty _ hall, hempty _ hall]

theorem port_resolved_per_entry_witness :
    ∃ added, [⟨"db", "0a1b2c3d4e5f", "pgdata", "2.00KB", "0.00", "5432"⟩,
        ⟨"db", "0a1b2c3d4e5f", "pglogs", "2.00KB", "0.00", "5432"⟩] = [] ++ added ∧
      (∀ (j : Nat) (e : VolumeStat), added[j]? = some e →
        e.Port = firstPort (mixedWorld.rangeOrder (([] : List VolumeStat).length + j)
          [("5432/tcp", [⟨"0.0.0.0", "5432"⟩])]) ∧
        ((∀ p ∈ ([("5432/tcp", [⟨"0.0.0.0", "5432"⟩])] : PortMap), p.2 = []) →
          e.Port = "" ∧ ∀ val, ("port", val) ∉ encodeVolumeStat e) ∧
        ((∃ p ∈ ([("5432/tcp", [⟨"0.0.0.0", "5432"⟩])] : PortMap), p.2 ≠ []) →
          ∃ p ∈ ([("5432/tcp", [⟨"0.0.0.0", "5432"⟩])] : PortMap),
            ∃ b bs, p.2 = b :: bs ∧ e.Port = b.HostPort)) ∧
      ((∀ p ∈ ([("5432/tcp", [⟨"0.0.0.0", "5432"⟩])] : PortMap),
          ∀ q ∈ ([("5432/tcp", [⟨"0.0.0.0", "5432"⟩])] : PortMap),
          p.2 ≠ [] → q.2 ≠ [] → p = q) →
        ∀ (j₁ j₂ : Nat) (e₁ e₂ : VolumeStat),
          added[j₁]? = some e₁ → added[j₂]? = some e₂ → e₁.Port = e₂.Port) :=
  port_resolved_per_entry mixedWorld (some "/db") "0a1b2c3d4e5f60718293"
    [("5432/tcp", [⟨"0.0.0.0", "5432"⟩])]
    [⟨"bind", ""⟩, ⟨"volume", "pgdata"⟩, ⟨"tmpfs", ""⟩, ⟨"volume", "pglogs"⟩] []
    [⟨"db", "0a1b2c3d4e5f", "pgdata", "2.00KB", "0.00", "5432"⟩,
     ⟨"db", "0a1b2c3d4e5f", "pglogs", "2.00KB", "0.00", "5432"⟩] (by decide)

/-! ### Measurement -/

/-- C7. For every helper run that exits successfully with combined output
`<integer><whitespace>/mnt`, optionally preceded by whitespace and followed by
any trailing content, where the integer is the decimal text of an int64,
`measureVolumeBytes` returns that integer: the first whitespace-delimited token
read in base 10, everything after it being ignored. -/
theorem measureVolumeBytes_first_token (W : World) (k : Nat) (volumeName : String) (n : Int)
    (pre sep rest : List Char) (hlo : -2 ^ 63 ≤ n) (hhi : n < 2 ^ 63)
    (hpre : ∀ c ∈ pre, isSpace c = true) (hsep : sep ≠ [])
    (hsp : ∀ c ∈ sep, isSpace c = true)
    (hrun : W.exec k (duCommand volumeName) =
      ⟨String.mk (pre ++ (toString n).data ++ sep ++ "/mnt".data ++ rest), false⟩) :
    measureVolumeBytes W k volumeName = n := by
  obtain ⟨hscan, hne, hns⟩ := sscanfInt_toString n hlo hhi
  obtain ⟨c, sep', rfl⟩ := List.exists_cons_of_ne_nil hsep
  have hc : isSpace c = true := hsp c (List.mem_cons_self c sep')
  have hf : fields (pre ++ (toString n).data ++ c :: sep' ++ "/mnt".data ++ rest) =
      (toString n).data :: fields (sep' ++ "/mnt".data ++ rest) := by
    have := fields_first pre (toString n).data (sep' ++ "/mnt".data ++ rest) c hpre hne hns hc
    simpa [List.append_assoc] using this
  unfold measureVolumeBytes parseDuOutput
  rw [hrun]
  simp only [Bool.false_eq_true, if_false, hf, hscan, Option.getD_some]

theorem measureVolumeBytes_first_token_witness :
    measureVolumeBytes (helperWorld ⟨"123456 /mnt", false⟩) 0 "data-vol" = 123456 :=
  measureVolumeBytes_first_token (helperWorld ⟨"123456 /mnt", false⟩) 0 "data-vol" 123456
    [] [' '] [] (by decide) (by decide) (by simp) (by simp) (by decide) (by decide)

theorem takeWhile_isDigit_nil (r : List Char)
    (h : (r.head?.map Char.isDigit).getD false = false) :
    r.takeWhile Char.isDigit = [] := by
  cases r with
  | nil => rfl
  | cons c cs =>
    simp only [List.head?_cons, Option.map_some', Option.getD_some] at h
    simp [List.takeWhile, h]

theorem sscanfInt_none (tok : List Char) (h : startsWithInteger tok = false) :
    sscanfInt tok = none := by
  unfold startsWithInteger at h
  unfold sscanfInt
  split at h <;> simp [takeWhile_isDigit_nil _ h]

theorem parseDuOutput_of_fails (r : CmdResult) (h : HelperFails r) : parseDuOutput r = 0 := by
  unfold parseDuOutput
  rcases h with h | h | ⟨tok, rest, hf, ht⟩
  · simp [h]
  · simp [fields_all_space _ h]
  · simp [hf, sscanfInt_none tok ht]

/-! ### Failed measurements -/

theorem listJobs_congr (W W' : World) (h : W'.containerInspect = W.containerInspect)
    (cs : List Container) : ∀ i, listJobs W' i cs = listJobs W i cs := by
  induction cs with
  | nil => intro i; rfl
  | cons c cs ih =>
    intro i
    unfold listJobs
    rw [h, ih]

theorem mkEntry_congr (W W' : World) (j : Nat) (t : Job)
    (horder : W'.rangeOrder = W.rangeOrder) (hexec : W'.exec j = W.exec j) :
    mkEntry W' j t = mkEntry W j t := by
  simp only [mkEntry, measureVolumeBytes, horder, hexec]

/-- C8, as stated, fails: the helper exits successfully with first token
"12abc", which is not a base-10 integer, yet the measurement is 12 and the entry
reports "12B". -/
theorem unparsable_token_measured_nonzero :
    fields "12abc\t/mnt\n".data = ["12abc".data, "/mnt".data] ∧
    isBase10Integer "12abc".data = false ∧
    measureVolumeBytes junkWorld 0 "data-vol" = 12 ∧
    statsHandler junkWorld = .response ⟨200, .json (.array
      [[("container_name", "web1"), ("container_id", "abcdef123456"),
        ("volume_name", "data-vol"), ("usage", "12B"), ("usage_mb", "0.00")]])⟩ := by
  decide

/-- C8, amended. Whenever the `k`-th helper run fails to launch or exits non-zero,
prints empty or whitespace-only output, or prints a first token that does not
begin with an optionally signed decimal digit, `measureVolumeBytes` returns 0
and the `k`-th entry is still produced, with usage "0B" and usage_mb "0.00";
compared with the same request in which that run ends in any other way, the
report has the same number of entries in the same order, every other entry is
identical, and the `k`-th has the same name, identifier, volume and port. -/
theorem measurement_failure_degrades (W W' : World) (cs : List Container) (k : Nat)
    (hclient : W.newClient = none) (hlist : W.containerList = .ok cs)
    (hclient' : W'.newClient = none) (hlist' : W'.containerList = .ok cs)
    (hwf : WellFormed cs)
    (hinspect : W'.containerInspect = W.containerInspect)
    (horder : W'.rangeOrder = W.rangeOrder)
    (hexec : ∀ j, j ≠ k → W'.exec j = W.exec j)
    (hfail : ∀ args, HelperFails (W.exec k args)) :
    (∀ v, measureVolumeBytes W k v = 0) ∧
    ∃ results results',
      statsHandler W = .response ⟨200, .json (encodeResults results)⟩ ∧
      statsHandler W' = .response ⟨200, .json (encodeResults results')⟩ ∧
      results.length = results'.length ∧
      ∀ (j : Nat) (e e' : VolumeStat), results[j]? = some e → results'[j]? = some e' →
        e.ContainerName = e'.ContainerName ∧ e.ContainerID = e'.ContainerID ∧
        e.VolumeName = e'.VolumeName ∧ e.Port = e'.Port ∧
        (j ≠ k → e = e') ∧ (j = k → e.Usage = "0B" ∧ e.UsageMB = "0.00") := by
  have hzero : ∀ v, measureVolumeBytes W k v = 0 :=
    fun v => parseDuOutput_of_fails _ (hfail (duCommand v))
  refine ⟨hzero, _, _, statsHandler_eq W cs hclient hlist hwf,
    statsHandler_eq W' cs hclient' hlist' hwf, ?_, ?_⟩
  · rw [length_runJobs, length_runJobs, listJobs_congr W W' hinspect]
  · intro j e e' he he'
    rw [getElem?_runJobs] at he he'
    rw [listJobs_congr W W' hinspect] at he'
    cases ht : (listJobs W 0 cs)[j]? with
    | none => rw [ht] at he; simp at he
    | some t =>
      rw [ht] at he he'
      simp only [Option.map_some', Option.some.injEq, Nat.zero_add] at he he'
      subst he he'
      refine ⟨rfl, rfl, rfl, ?_, ?_, ?_⟩
      · simp only [mkEntry, horder]
      · intro hj
        exact (mkEntry_congr W W' j t horder (hexec j hj)).symm
      · intro hj
        subst hj
        simp only [mkEntry, hzero]
        exact ⟨by decide, by decide⟩

theorem measurement_failure_degrades_witness :
    statsHandler (brokenVolWorld true) = .response ⟨200, .json (.array
      [[("container_name", "app"), ("container_id", "77aa88bb99cc"),
        ("volume_name", "broken-vol"), ("usage", "0B"), ("usage_mb", "0.00")],
       [("container_name", "app"), ("container_id", "77aa88bb99cc"),
        ("volume_name", "good-vol"), ("usage", "2.00KB"), ("usage_mb", "0.00")]])⟩ ∧
    ((∀ v, measureVolumeBytes (brokenVolWorld true) 0 v = 0) ∧
    ∃ results results',
      statsHandler (brokenVolWorld true) = .response ⟨200, .json (encodeResults results)⟩ ∧
      statsHandler (brokenVolWorld false) = .response ⟨200, .json (encodeResults results')⟩ ∧
      results.length = results'.length ∧
      ∀ (j : Nat) (e e' : VolumeStat), results[j]? = some e → results'[j]? = some e' →
        e.ContainerName = e'.ContainerName ∧ e.ContainerID = e'.ContainerID ∧
        e.VolumeName = e'.VolumeName ∧ e.Port = e'.Port ∧
        (j ≠ 0 → e = e') ∧ (j = 0 → e.Usage = "0B" ∧ e.UsageMB = "0.00")) :=
  ⟨by decide,
    measurement_failure_degrades (brokenVolWorld true) (brokenVolWorld false)
      [⟨"77aa88bb99cc00dd11ee", ["/app"]⟩] 0 rfl rfl rfl rfl
      (by unfold WellFormed; decide) rfl rfl
      (by
        intro j hj
        funext args
        simp [brokenVolWorld, simpleWorld, hj])
      (by
        intro args
        exact Or.inl rfl)⟩

/-! ### Single-container path and shape of the response -/

/-- C4 fails on the single-container path: asked for the container by its name,
the handler reports the first 12 characters of the requested name,
"my-database-", not of the identifier supplied by the backend, "4f5e6d7c8b9a",
which the list-all path reports for the same container. -/
theorem single_container_id_from_request :
    namedWorld.containerInspect 0 "my-database-01" =
      .ok ⟨"4f5e6d7c8b9a0f1e2d3c", "/my-database-01", [⟨"volume", "pgdata"⟩], []⟩ ∧
    sliceTo "4f5e6d7c8b9a0f1e2d3c" 12 = some "4f5e6d7c8b9a" ∧
    singleContainerStatsHandler namedWorld "/stats/my-database-01" =
      .response ⟨200, .json (.array
        [[("container_name", "my-database-01"), ("container_id", "my-database-"),
          ("volume_name", "pgdata"), ("usage", "4.00KB"), ("usage_mb", "0.00")]])⟩ ∧
    statsHandler namedWorld =
      .response ⟨200, .json (.array
        [[("container_name", "my-database-01"), ("container_id", "4f5e6d7c8b9a"),
          ("volume_name", "pgdata"), ("usage", "4.00KB"), ("usage_mb", "0.00")]])⟩ := by
  refine ⟨rfl, ?_, ?_, ?_⟩ <;> decide

/-- C9 fails for a short identifier: the empty id gives 400 and an unknown
container 404, but the id `web1`, which the backend resolves to a container with
a volume, ends in a panic (`containerID[:12]` on a 4-character string) instead
of a 200 response; only the full identifier gives the 200 response. -/
theorem single_container_short_id_panics :
    singleContainerStatsHandler web1World "/stats/" =
      .response ⟨400, .text "Container ID required\n"⟩ ∧
    singleContainerStatsHandler web1World "/stats/doesnotexist" =
      .response ⟨404, .text "Error response from daemon: No such container: doesnotexist\n"⟩ ∧
    singleContainerStatsHandler web1World "/stats/abcdef1234567890" =
      .response ⟨200, .json (.array
        [[("container_name", "web1"), ("container_id", "abcdef123456"),
          ("volume_name", "data-vol"), ("usage", "15.25MB"), ("usage_mb", "15.25")]])⟩ ∧
    web1World.containerInspect 0 "web1" =
      .ok ⟨"abcdef1234567890", "/web1", [⟨"volume", "data-vol"⟩], []⟩ ∧
    singleContainerStatsHandler web1World "/stats/web1" = .panic := by
  refine ⟨?_, ?_, ?_, rfl, ?_⟩ <;> decide

/-- C10 fails when there is no entry: with no running container, or with no
volume-type mount, the 200 response carries the JSON value `null` (the encoding
of the nil slice `results`), not the empty array. -/
theorem empty_report_is_null :
    statsHandler idleWorld = .response ⟨200, .json .null⟩ ∧
    statsHandler bindOnlyWorld = .response ⟨200, .json .null⟩ ∧
    Json.null ≠ Json.array [] := by
  decide

end DockerMemoryApi
